import Mathlib

/-!
Verification of the Canopy job-search pipeline against its specification.

The repository ships the React frontend (`frontend/src/pages/*.jsx`,
`frontend/src/services/api.js`) together with its documentation; the Python
backend (`backend/src/...`) that implements the ingestion, deduplication,
scoring, embedding and similarity-search pipeline is not part of the source
tree. The backend components are therefore modelled here from the
specification (each such definition carries a doc comment starting with
`Modelled from the spec:`), while the frontend request-building code is
embedded directly from the JavaScript sources.
-/

namespace Canopy

/-! ### Normalizer (spec 4.1) -/

/-- Modelled from the spec: drop consecutive spaces and leading spaces from a
character list (the whitespace-collapsing step of the dedup-key normalizer). -/
def collapseSpaces : List Char → List Char
  | [] => []
  | ' ' :: rest =>
    match collapseSpaces rest with
    | [] => []
    | r@(c :: _) => if c = ' ' then r else ' ' :: r
  | c :: rest => c :: collapseSpaces rest

/-- Modelled from the spec: lower-case the text, strip punctuation (keep only
alphanumeric characters), and collapse whitespace runs to single spaces
(`backend/src/utils` deduplication helper is absent from the tree). -/
def normalizeText (s : String) : String :=
  let cleaned := s.data.filterMap fun c =>
    if c.isAlphanum then some c.toLower
    else if c.isWhitespace then some ' '
    else none
  String.mk (collapseSpaces cleaned)

/-- Modelled from the spec: the dedup key is the normalized concatenation of
title + company + location; empty segments stay empty strings. -/
def dedupKeyOf (title company location : String) : String :=
  normalizeText title ++ "|" ++ normalizeText company ++ "|" ++ normalizeText location

/-! ### Data model (spec 3) -/

/-- A raw listing as produced by a source adapter (spec 3 and 6). -/
structure RawListing where
  title : String
  company : String
  location : String
  url : String
  description : String
  requirements : String
  salaryMin : Option Int
  salaryMax : Option Int
  workType : String
  source : String
  postedDate : Option Nat
  deriving DecidableEq, Repr

/-- A persisted Job record (spec 3). `fit_score` is modelled with integers and
the embedding as an integer vector; neither claim below depends on the numeric
representation. -/
structure Job where
  id : String
  title : String
  company : String
  location : String
  url : String
  description : String
  requirements : String
  salaryMin : Option Int
  salaryMax : Option Int
  workType : String
  source : String
  scrapedAt : Nat
  postedDate : Option Nat
  status : String
  notes : String
  fitScore : Option Int
  fitRationale : Option String
  embedding : Option (List Int)
  duplicateOf : Option String
  deriving DecidableEq, Repr

/-- Modelled from the spec: the job id is a stable identifier derived
deterministically from the source URL (the repository's README documents a
truncated SHA256 of the URL; any deterministic injective function of the URL
models it for the claims below). -/
def jobId (url : String) : String := "id:" ++ url

/-- The dedup key of a stored job, recomputed from its current fields
(spec 3: "dedup_key is recomputed on every normalization, never stored
stale"). -/
def jobKey (j : Job) : String := dedupKeyOf j.title j.company j.location

/-! ### Deduplicator (spec 4.2) -/

/-- Modelled from the spec: the canonical-selection order — earlier
`scraped_at` first, ties broken by lexicographically smallest id. -/
def JobLt (a b : Job) : Prop :=
  a.scrapedAt < b.scrapedAt ∨ (a.scrapedAt = b.scrapedAt ∧ a.id < b.id)

instance : DecidableRel JobLt := fun a b => by
  unfold JobLt; exact inferInstance

/-- One step of the minimum computation used to pick the canonical job. -/
def pickMin (c x : Job) : Job := if JobLt x c then x else c

/-- Modelled from the spec: among the jobs sharing a dedup key, the canonical
is the one with the earliest `scraped_at`, ties broken by lexicographically
smallest id. -/
def chooseCanonical : List Job → Option Job
  | [] => none
  | j :: js => some (js.foldl pickMin j)

/-- The jobs of `store` whose recomputed dedup key equals `k`. -/
def keyGroup (store : List Job) (k : String) : List Job :=
  store.filter fun x => decide (jobKey x = k)

/-- Rewrite one job's `duplicate_of` pointer against the canonical of its key
group inside `store`. -/
def setDup (store : List Job) (j : Job) : Job :=
  match chooseCanonical (keyGroup store (jobKey j)) with
  | none => j
  | some c =>
    if j.id = c.id then { j with duplicateOf := none }
    else { j with duplicateOf := some c.id }

/-- Modelled from the spec: after every ingestion the duplicate pointers of
every key group are resolved so that exactly the canonical job (earliest
`scraped_at`, ties by smallest id) has `duplicate_of = null` and all others
reference it (spec 4.2 and the invariants of spec 8). -/
def rededup (store : List Job) : List Job :=
  store.map (setDup store)

/-- Modelled from the spec: refresh the scraped metadata of an existing job
from a re-scraped raw listing, preserving the user-owned fields
(status, notes) and the computed fields (fit_score, fit_rationale,
embedding) untouched (spec 4.2, upsert case). -/
def refresh (old : Job) (r : RawListing) (now : Nat) : Job :=
  { old with
    title := r.title, company := r.company, location := r.location,
    url := r.url, description := r.description, requirements := r.requirements,
    salaryMin := r.salaryMin, salaryMax := r.salaryMax, workType := r.workType,
    source := r.source, postedDate := r.postedDate, scrapedAt := now }

/-- A newly created job record for a first-seen raw listing. -/
def freshJob (r : RawListing) (now : Nat) : Job :=
  { id := jobId r.url, title := r.title, company := r.company,
    location := r.location, url := r.url, description := r.description,
    requirements := r.requirements, salaryMin := r.salaryMin,
    salaryMax := r.salaryMax, workType := r.workType, source := r.source,
    scrapedAt := now, postedDate := r.postedDate, status := "new",
    notes := "", fitScore := none, fitRationale := none, embedding := none,
    duplicateOf := none }

/-- Modelled from the spec: the upsert step — a listing whose id (a pure
function of its URL) is already present refreshes that record in place,
otherwise a new record is appended. -/
def upsertRaw (store : List Job) (r : RawListing) (now : Nat) : List Job :=
  if ∃ j ∈ store, j.id = jobId r.url then
    store.map fun j => if j.id = jobId r.url then refresh j r now else j
  else
    store ++ [freshJob r now]

/-- Modelled from the spec: ingest one raw listing — Normalize → upsert →
re-resolve duplicate pointers (spec 4.6 pipeline step). -/
def ingest (store : List Job) (r : RawListing) (now : Nat) : List Job :=
  rededup (upsertRaw store r now)

/-- Stores reachable from the empty store by ingesting raw listings. -/
inductive Reachable : List Job → Prop
  | nil : Reachable []
  | step (s : List Job) (r : RawListing) (t : Nat) :
      Reachable s → Reachable (ingest s r t)

/-- No duplicate chains: every `duplicate_of` pointer references an existing
job whose own `duplicate_of` is null (spec 3 invariant). -/
def NoChains (store : List Job) : Prop :=
  ∀ j ∈ store, ∀ cid, j.duplicateOf = some cid →
    ∃ c ∈ store, c.id = cid ∧ c.duplicateOf = none

/-- Every key group has exactly one canonical job — its `duplicate_of` is
null, it strictly precedes every other member in (scraped_at, id) order, and
every other member references it (spec 8, first testable property). -/
def CanonicalInvariant (store : List Job) : Prop :=
  ∀ j ∈ store, ∃ c ∈ keyGroup store (jobKey j),
    c.duplicateOf = none ∧
    ∀ x ∈ keyGroup store (jobKey j), x ≠ c →
      JobLt c x ∧ x.duplicateOf = some c.id

/-- The full deduplication invariant of claim C1. -/
def DedupInvariant (store : List Job) : Prop :=
  CanonicalInvariant store ∧ NoChains store

instance : DecidablePred NoChains := fun store => by
  unfold NoChains; exact inferInstance

instance : DecidablePred CanonicalInvariant := fun store => by
  unfold CanonicalInvariant; exact inferInstance

instance : DecidablePred DedupInvariant := fun store => by
  unfold DedupInvariant; exact inferInstance

/-! ### Order lemmas for the canonical-selection order -/

theorem jobLt_irrefl (a : Job) : ¬ JobLt a a := by
  rintro (h | ⟨-, h⟩)
  · exact lt_irrefl _ h
  · exact lt_irrefl _ h

theorem jobLt_trans {a b c : Job} (h₁ : JobLt a b) (h₂ : JobLt b c) :
    JobLt a c := by
  rcases h₁ with h₁ | ⟨e₁, l₁⟩ <;> rcases h₂ with h₂ | ⟨e₂, l₂⟩
  · exact Or.inl (lt_trans h₁ h₂)
  · exact Or.inl (e₂ ▸ h₁)
  · exact Or.inl (e₁ ▸ h₂)
  · exact Or.inr ⟨e₁.trans e₂, lt_trans l₁ l₂⟩

theorem jobLt_connex {a b : Job} (h : a.id ≠ b.id) :
    JobLt a b ∨ JobLt b a := by
  rcases Nat.lt_trichotomy a.scrapedAt b.scrapedAt with hs | hs | hs
  · exact Or.inl (Or.inl hs)
  · rcases lt_trichotomy a.id b.id with hi | hi | hi
    · exact Or.inl (Or.inr ⟨hs, hi⟩)
    · exact absurd hi h
    · exact Or.inr (Or.inr ⟨hs.symm, hi⟩)
  · exact Or.inr (Or.inl hs)

theorem jobLt_of_not_lt_of_lt {a b c : Job}
    (hba : ¬ JobLt b a) (hbc : JobLt b c) : JobLt a c := by
  rcases Nat.lt_trichotomy a.scrapedAt b.scrapedAt with hs | hs | hs
  · rcases hbc with hbc | ⟨e, -⟩
    · exact Or.inl (lt_trans hs hbc)
    · exact Or.inl (e ▸ hs)
  · rcases hbc with hbc | ⟨e, l⟩
    · exact Or.inl (hs ▸ hbc)
    · rcases lt_trichotomy a.id b.id with hi | hi | hi
      · exact Or.inr ⟨hs.trans e, lt_trans hi l⟩
      · exact Or.inr ⟨hs.trans e, hi ▸ l⟩
      · exact absurd (Or.inr ⟨hs.symm, hi⟩) hba
  · exact absurd (Or.inl hs) hba

/-! ### Minimum-selection lemmas -/

theorem pickMin_foldl_mem (l : List Job) (init : Job) :
    l.foldl pickMin init = init ∨ l.foldl pickMin init ∈ l := by
  induction l generalizing init with
  | nil => exact Or.inl rfl
  | cons j js ih =>
    simp only [List.foldl_cons]
    rcases ih (pickMin init j) with h | h
    · rw [h]
      unfold pickMin
      split
      · exact Or.inr (List.mem_cons_self _ _)
      · exact Or.inl rfl
    · exact Or.inr (List.mem_cons_of_mem _ h)

theorem pickMin_foldl_min (l : List Job) :
    ∀ init x : Job, x = init ∨ x ∈ l → ¬ JobLt x (l.foldl pickMin init) := by
  induction l with
  | nil =>
    rintro init x (rfl | h)
    · exact jobLt_irrefl x
    · cases h
  | cons j js ih =>
    rintro init x hx
    simp only [List.foldl_cons]
    by_cases hj : JobLt j init
    · rw [show pickMin init j = j from if_pos hj]
      rcases hx with rfl | hx
      · intro hlt
        exact ih j j (Or.inl rfl) (jobLt_trans hj hlt)
      · rcases List.mem_cons.mp hx with rfl | hx
        · exact ih x x (Or.inl rfl)
        · exact ih j x (Or.inr hx)
    · rw [show pickMin init j = init from if_neg hj]
      rcases hx with rfl | hx
      · exact ih x x (Or.inl rfl)
      · rcases List.mem_cons.mp hx with rfl | hx
        · intro hlt
          exact ih init init (Or.inl rfl) (jobLt_of_not_lt_of_lt hj hlt)
        · exact ih init x (Or.inr hx)

theorem chooseCanonical_mem {l : List Job} {c : Job}
    (h : chooseCanonical l = some c) : c ∈ l := by
  cases l with
  | nil => cases h
  | cons j js =>
    have hc : js.foldl pickMin j = c := by
      simpa [chooseCanonical] using h
    rcases pickMin_foldl_mem js j with h' | h'
    · rw [← hc, h']; exact List.mem_cons_self _ _
    · rw [← hc]; exact List.mem_cons_of_mem _ h'

theorem chooseCanonical_min {l : List Job} {c : Job}
    (h : chooseCanonical l = some c) : ∀ x ∈ l, ¬ JobLt x c := by
  cases l with
  | nil => cases h
  | cons j js =>
    have hc : js.foldl pickMin j = c := by
      simpa [chooseCanonical] using h
    intro x hx
    rw [← hc]
    exact pickMin_foldl_min js j x (List.mem_cons.mp hx)

theorem chooseCanonical_eq_none {l : List Job} :
    chooseCanonical l = none ↔ l = [] := by
  cases l <;> simp [chooseCanonical]

/-! ### Structural lemmas about `setDup`, `rededup` and `keyGroup` -/

theorem setDup_eta (s : List Job) (j : Job) :
    ∃ d, setDup s j = { j with duplicateOf := d } := by
  unfold setDup
  cases chooseCanonical (keyGroup s (jobKey j)) with
  | none => exact ⟨j.duplicateOf, rfl⟩
  | some c =>
    dsimp only
    split
    · exact ⟨none, rfl⟩
    · exact ⟨some c.id, rfl⟩

theorem setDup_id (s : List Job) (j : Job) : (setDup s j).id = j.id := by
  obtain ⟨d, hd⟩ := setDup_eta s j
  rw [hd]

theorem setDup_key (s : List Job) (j : Job) :
    jobKey (setDup s j) = jobKey j := by
  obtain ⟨d, hd⟩ := setDup_eta s j
  rw [hd]; rfl

theorem mem_keyGroup_self {s : List Job} {j : Job} (h : j ∈ s) :
    j ∈ keyGroup s (jobKey j) :=
  List.mem_filter.mpr ⟨h, by simp⟩

theorem keyGroup_key {s : List Job} {k : String} {x : Job}
    (h : x ∈ keyGroup s k) : jobKey x = k := by
  have := (List.mem_filter.mp h).2
  simpa using this

theorem keyGroup_sub {s : List Job} {k : String} {x : Job}
    (h : x ∈ keyGroup s k) : x ∈ s :=
  List.mem_of_mem_filter h

theorem keyGroup_map_setDup (s : List Job) (k : String) (t : List Job) :
    keyGroup (t.map (setDup s)) k = (keyGroup t k).map (setDup s) := by
  induction t with
  | nil => rfl
  | cons a t ih =>
    unfold keyGroup at *
    simp only [List.map_cons, List.filter_cons, setDup_key]
    by_cases h : jobKey a = k
    · simp [h, ih]
    · simp [h, ih]

theorem rededup_map_id (s : List Job) :
    (rededup s).map Job.id = s.map Job.id := by
  unfold rededup
  rw [List.map_map]
  exact List.map_congr_left fun a _ => setDup_id s a

theorem setDup_canonical {s : List Job} {k : String} {c : Job}
    (hk : jobKey c = k) (hcc : chooseCanonical (keyGroup s k) = some c) :
    setDup s c = { c with duplicateOf := none } := by
  unfold setDup
  rw [hk, hcc]
  simp

theorem setDup_noncanonical {s : List Job} {k : String} {c x : Job}
    (hk : jobKey x = k) (hcc : chooseCanonical (keyGroup s k) = some c)
    (hne : x.id ≠ c.id) :
    setDup s x = { x with duplicateOf := some c.id } := by
  unfold setDup
  rw [hk, hcc]
  simp [hne]

/-- Re-resolving duplicate pointers establishes the full dedup invariant on
any store whose ids are distinct. -/
theorem rededup_dedupInvariant (s : List Job)
    (hnd : (s.map Job.id).Nodup) : DedupInvariant (rededup s) := by
  have idInj : ∀ ⦃x⦄, x ∈ s → ∀ ⦃y⦄, y ∈ s → x.id = y.id → x = y :=
    List.inj_on_of_nodup_map hnd
  have hmm : ∀ {j'}, j' ∈ rededup s → ∃ j ∈ s, setDup s j = j' := by
    intro j' hj'
    unfold rededup at hj'
    exact List.mem_map.mp hj'
  have hcanon : ∀ {j}, j ∈ s → ∃ c,
      chooseCanonical (keyGroup s (jobKey j)) = some c := by
    intro j hj
    cases h : chooseCanonical (keyGroup s (jobKey j)) with
    | none =>
      rw [chooseCanonical_eq_none] at h
      have := mem_keyGroup_self hj
      rw [h] at this
      cases this
    | some c => exact ⟨c, rfl⟩
  constructor
  · intro j' hj'
    obtain ⟨j, hj, rfl⟩ := hmm hj'
    obtain ⟨c, hcc⟩ := hcanon hj
    have hcmem : c ∈ keyGroup s (jobKey j) := chooseCanonical_mem hcc
    have hck : jobKey c = jobKey j := keyGroup_key hcmem
    have hcs : c ∈ s := keyGroup_sub hcmem
    refine ⟨setDup s c, ?_, ?_, ?_⟩
    · rw [setDup_key]
      unfold rededup
      rw [keyGroup_map_setDup]
      exact List.mem_map_of_mem _ hcmem
    · rw [setDup_canonical hck hcc]
    · intro x' hx' hne
      rw [setDup_key] at hx'
      unfold rededup at hx'
      rw [keyGroup_map_setDup] at hx'
      obtain ⟨x, hx, rfl⟩ := List.mem_map.mp hx'
      have hxk : jobKey x = jobKey j := keyGroup_key hx
      have hxs : x ∈ s := keyGroup_sub hx
      have hxc : x ≠ c := fun h => hne (by rw [h])
      have hid : x.id ≠ c.id := fun h => hxc (idInj hxs hcs h)
      have hlt : JobLt c x :=
        (jobLt_connex hid).resolve_left (chooseCanonical_min hcc x hx)
      constructor
      · rw [setDup_canonical hck hcc, setDup_noncanonical hxk hcc hid]
        rcases hlt with h | ⟨h₁, h₂⟩
        · exact Or.inl h
        · exact Or.inr ⟨h₁, h₂⟩
      · rw [setDup_canonical hck hcc, setDup_noncanonical hxk hcc hid]
  · intro j' hj' cid hdup
    obtain ⟨j, hj, rfl⟩ := hmm hj'
    obtain ⟨c, hcc⟩ := hcanon hj
    have hcmem : c ∈ keyGroup s (jobKey j) := chooseCanonical_mem hcc
    have hck : jobKey c = jobKey j := keyGroup_key hcmem
    have hcs : c ∈ s := keyGroup_sub hcmem
    by_cases hid : j.id = c.id
    · have hjc : j = c := idInj hj hcs hid
      rw [hjc, setDup_canonical hck hcc] at hdup
      cases hdup
    · rw [setDup_noncanonical rfl hcc hid] at hdup
      have hcid : cid = c.id := by
        simpa using hdup.symm
      refine ⟨setDup s c, ?_, ?_, ?_⟩
      · unfold rededup
        exact List.mem_map_of_mem _ hcs
      · rw [setDup_canonical hck hcc, hcid]
      · rw [setDup_canonical hck hcc]

/-! ### Ids across ingestion -/

theorem upsertRaw_map_id (s : List Job) (r : RawListing) (now : Nat) :
    (upsertRaw s r now).map Job.id =
      if ∃ j ∈ s, j.id = jobId r.url then s.map Job.id
      else s.map Job.id ++ [jobId r.url] := by
  unfold upsertRaw
  split
  · rw [List.map_map]
    apply List.map_congr_left
    intro a _
    show (if a.id = jobId r.url then refresh a r now else a).id = a.id
    split <;> rfl
  · simp [freshJob]

theorem ingest_map_id (s : List Job) (r : RawListing) (now : Nat) :
    (ingest s r now).map Job.id = (upsertRaw s r now).map Job.id :=
  rededup_map_id _

theorem upsertRaw_nodup (s : List Job) (r : RawListing) (now : Nat)
    (h : (s.map Job.id).Nodup) : ((upsertRaw s r now).map Job.id).Nodup := by
  rw [upsertRaw_map_id]
  split
  · exact h
  · next hcond =>
    rw [List.nodup_append]
    refine ⟨h, List.nodup_singleton _, ?_⟩
    intro x hx hx2
    obtain ⟨j, hj, rfl⟩ := List.mem_map.mp hx
    exact hcond ⟨j, hj, by simpa using hx2⟩

theorem reachable_nodup {s : List Job} (h : Reachable s) :
    (s.map Job.id).Nodup := by
  induction h with
  | nil => simp
  | step s r t _ ih =>
    rw [ingest_map_id]
    exact upsertRaw_nodup s r t ih

/-! ### Claim C1 -/

/-- C1: in every store reachable by the ingestion pipeline, each set of jobs
sharing a normalized (title, company, location) dedup key has exactly one
canonical member (its `duplicate_of` is null), that member is the one with the
earliest `scraped_at` (ties broken by lexicographically smallest id, strictly
preceding every other member), every other member's `duplicate_of` is the
canonical's id, and every `duplicate_of` pointer in the store references an
existing job whose own `duplicate_of` is null. -/
theorem c1_dedup_invariant (store : List Job) (h : Reachable store) :
    DedupInvariant store := by
  induction h with
  | nil =>
    constructor
    · intro j hj; cases hj
    · intro j hj; cases hj
  | step s r t hs _ =>
    exact rededup_dedupInvariant _ (upsertRaw_nodup s r t (reachable_nodup hs))

/-- Job A of spec scenario 1: Data Scientist at Acme in Austin, scraped at
time 1 from indeed. -/
def rawA : RawListing :=
  { title := "Data Scientist", company := "Acme", location := "Austin, TX"
    url := "https://indeed.example/a", description := "desc a"
    requirements := "req a", salaryMin := none, salaryMax := none
    workType := "onsite", source := "indeed", postedDate := none }

/-- Job B of spec scenario 1: identical normalized key, scraped later from
wellfound. -/
def rawB : RawListing :=
  { title := "Data  Scientist!", company := "ACME", location := "austin tx"
    url := "https://wellfound.example/b", description := "desc b"
    requirements := "req b", salaryMin := some 100, salaryMax := some 120
    workType := "remote", source := "wellfound", postedDate := none }

/-- A concrete store built by two ingestions. -/
def demoStore : List Job := ingest (ingest [] rawA 1) rawB 2

theorem c1_dedup_invariant_witness : DedupInvariant demoStore :=
  c1_dedup_invariant demoStore
    (Reachable.step _ rawB 2 (Reachable.step _ rawA 1 Reachable.nil))

/-! ### Claim C2 -/

/-- C2: re-ingesting a raw listing whose URL-derived id is already present is
an upsert — the list of job ids is unchanged (no second record is created for
the same URL), and the job with that id keeps its user-owned fields (status,
notes) and computed fields (fit_score, fit_rationale, embedding) exactly as
they were, while the scraped metadata (title, company, location, url,
description, requirements, salary bounds, work type, source, scraped_at) is
refreshed from the new listing. -/
theorem c2_upsert_preserves (store : List Job) (r : RawListing) (now : Nat)
    (hmem : ∃ j ∈ store, j.id = jobId r.url) :
    (ingest store r now).map Job.id = store.map Job.id ∧
    ∀ j ∈ store, j.id = jobId r.url →
      ∃ j' ∈ ingest store r now, j'.id = j.id ∧
        j'.status = j.status ∧ j'.notes = j.notes ∧
        j'.fitScore = j.fitScore ∧ j'.fitRationale = j.fitRationale ∧
        j'.embedding = j.embedding ∧
        j'.title = r.title ∧ j'.company = r.company ∧
        j'.location = r.location ∧ j'.url = r.url ∧
        j'.description = r.description ∧ j'.requirements = r.requirements ∧
        j'.salaryMin = r.salaryMin ∧ j'.salaryMax = r.salaryMax ∧
        j'.workType = r.workType ∧ j'.source = r.source ∧
        j'.scrapedAt = now := by
  constructor
  · rw [ingest_map_id, upsertRaw_map_id, if_pos hmem]
  · intro j hj hid
    have hbranch : upsertRaw store r now =
        store.map fun x => if x.id = jobId r.url then refresh x r now else x := by
      unfold upsertRaw
      rw [if_pos hmem]
    refine ⟨setDup (upsertRaw store r now) (refresh j r now), ?_, ?_⟩
    · unfold ingest rededup
      apply List.mem_map_of_mem
      rw [hbranch]
      have : (fun x => if x.id = jobId r.url then refresh x r now else x) j
          = refresh j r now := by
        simp only [hid, if_true]
      rw [← this]
      exact List.mem_map_of_mem _ hj
    · obtain ⟨d, hd⟩ := setDup_eta (upsertRaw store r now) (refresh j r now)
      rw [hd]
      refine ⟨?_, ?_, ?_, ?_, ?_, ?_, ?_, ?_, ?_, ?_, ?_, ?_, ?_, ?_, ?_, ?_, ?_⟩ <;>
        rfl

/-- A one-job store and a re-scrape of the same URL with changed metadata. -/
def demoStore2 : List Job := ingest [] rawA 1

/-- The same URL as `rawA`, rescraped with different scraped metadata. -/
def rawA2 : RawListing :=
  { title := "Senior Data Scientist", company := "Acme Corp"
    location := "Austin, TX", url := "https://indeed.example/a"
    description := "new desc", requirements := "new req"
    salaryMin := some 90, salaryMax := none, workType := "hybrid"
    source := "indeed", postedDate := some 7 }

theorem c2_upsert_preserves_witness :
    (ingest demoStore2 rawA2 5).map Job.id = demoStore2.map Job.id ∧
    ∀ j ∈ demoStore2, j.id = jobId rawA2.url →
      ∃ j' ∈ ingest demoStore2 rawA2 5, j'.id = j.id ∧
        j'.status = j.status ∧ j'.notes = j.notes ∧
        j'.fitScore = j.fitScore ∧ j'.fitRationale = j.fitRationale ∧
        j'.embedding = j.embedding ∧
        j'.title = rawA2.title ∧ j'.company = rawA2.company ∧
        j'.location = rawA2.location ∧ j'.url = rawA2.url ∧
        j'.description = rawA2.description ∧
        j'.requirements = rawA2.requirements ∧
        j'.salaryMin = rawA2.salaryMin ∧ j'.salaryMax = rawA2.salaryMax ∧
        j'.workType = rawA2.workType ∧ j'.source = rawA2.source ∧
        j'.scrapedAt = 5 :=
  c2_upsert_preserves demoStore2 rawA2 5 (by decide)

/-! ### Scorer (spec 4.3) -/

/-- The user profile (spec 3). Skills are flattened to one list; the claims
below only read `dealbreakers`. -/
structure Profile where
  targetTitles : List String
  skills : List String
  experienceYears : Nat
  locations : List String
  workTypes : List String
  industries : List String
  minSalary : Option Int
  dealbreakers : List String
  deriving DecidableEq, Repr

/-- Sub-scores returned by the external rubric evaluator (spec 4.3: title 25,
skills 35, location/work-type 15, salary 10, experience 10, industry bonus
5). -/
structure RubricScores where
  titleMatch : Int
  skillsOverlap : Int
  locationFit : Int
  salaryFit : Int
  experienceFit : Int
  industryBonus : Int
  deriving DecidableEq, Repr

/-- The rubric evaluator's rationale together with its sub-scores. -/
structure RubricResult where
  scores : RubricScores
  rationale : String
  deriving DecidableEq, Repr

/-- The scorer output. -/
structure ScoreResult where
  fitScore : Int
  rationale : String
  deriving DecidableEq, Repr

/-- Does `hay` contain `nee` as a contiguous run? (substring check over
character lists). -/
def hasSub (nee : List Char) : List Char → Bool
  | [] => nee.isEmpty
  | h :: hs => (nee.isPrefixOf (h :: hs)) || hasSub nee hs

/-- Lower-case every character of a character list. -/
def lowerChars (l : List Char) : List Char := l.map Char.toLower

/-- Modelled from the spec: case-insensitive substring containment, as in a
Python `needle.lower() in hay.lower()` test. -/
def containsCI (hay nee : String) : Bool :=
  hasSub (lowerChars nee.data) (lowerChars hay.data)

/-- The text the dealbreaker check scans: the job's description plus
requirements (spec 4.3). -/
def jobScoreText (j : Job) : String :=
  j.description ++ " " ++ j.requirements

/-- Modelled from the spec: the first profile dealbreaker phrase contained
(case-insensitively) in the job's description+requirements, if any. -/
def findDealbreaker (j : Job) (p : Profile) : Option String :=
  p.dealbreakers.find? fun d => containsCI (jobScoreText j) d

/-- The rationale produced when a dealbreaker short-circuits scoring. -/
def dealbreakerRationale (d : String) : String :=
  "Dealbreaker triggered: " ++ d

/-- Total of the rubric sub-scores. -/
def rubricTotal (r : RubricScores) : Int :=
  r.titleMatch + r.skillsOverlap + r.locationFit + r.salaryFit +
    r.experienceFit + r.industryBonus

/-- Clamp a rubric total into [0, 100] (spec 4.3). -/
def clampScore (n : Int) : Int := max 0 (min 100 n)

/-- Modelled from the spec: `score(job, profile)`. The external rubric
evaluator is passed explicitly; the second component counts how many times it
was invoked. A dealbreaker match short-circuits to fitScore 0 with a
rationale naming the dealbreaker, skipping the evaluator entirely;
otherwise the evaluator's sub-scores are summed and clamped to [0,100]. -/
def score (j : Job) (p : Profile) (evaluator : Job → Profile → RubricResult) :
    ScoreResult × Nat :=
  match findDealbreaker j p with
  | some d => ({ fitScore := 0, rationale := dealbreakerRationale d }, 0)
  | none =>
    let r := evaluator j p
    ({ fitScore := clampScore (rubricTotal r.scores)
       rationale := r.rationale }, 1)

/-! ### Claim C3 -/

/-- C3: whenever the job's description+requirements contains (case-insensitive
substring match) at least one profile dealbreaker phrase, `score` returns
fitScore exactly 0, the rationale names a triggering dealbreaker, and the
external rubric evaluator is invoked zero times — for every evaluator. -/
theorem c3_dealbreaker_short_circuit (j : Job) (p : Profile)
    (evaluator : Job → Profile → RubricResult)
    (h : ∃ d ∈ p.dealbreakers, containsCI (jobScoreText j) d = true) :
    ∃ d ∈ p.dealbreakers, containsCI (jobScoreText j) d = true ∧
      (score j p evaluator).1.fitScore = 0 ∧
      (score j p evaluator).1.rationale = dealbreakerRationale d ∧
      (score j p evaluator).2 = 0 := by
  have hsome : (findDealbreaker j p).isSome := by
    unfold findDealbreaker
    exact List.find?_isSome.mpr h
  cases hfd : findDealbreaker j p with
  | none => rw [hfd] at hsome; cases hsome
  | some d =>
    refine ⟨d, List.mem_of_find?_eq_some hfd, List.find?_some hfd, ?_, ?_, ?_⟩ <;>
      · unfold score
        rw [hfd]

/-- Spec scenario 2: a profile whose only dealbreaker is
"clearance required" and a job whose description contains
"Active clearance required.". -/
def demoProfile : Profile :=
  { targetTitles := ["Data Scientist"], skills := ["Python"]
    experienceYears := 5, locations := ["Austin, TX"]
    workTypes := ["remote"], industries := ["Tech"], minSalary := none
    dealbreakers := ["clearance required"] }

/-- A concrete job whose description triggers the dealbreaker. -/
def demoClearanceJob : Job :=
  { id := jobId "https://x.example/c", title := "Data Scientist"
    company := "DefenseCo", location := "Austin, TX"
    url := "https://x.example/c"
    description := "Active clearance required."
    requirements := "Python", salaryMin := none, salaryMax := none
    workType := "onsite", source := "indeed", scrapedAt := 3
    postedDate := none, status := "new", notes := "", fitScore := none
    fitRationale := none, embedding := none, duplicateOf := none }

/-- A concrete evaluator, used only to instantiate the theorem. -/
def demoEvaluator : Job → Profile → RubricResult := fun _ _ =>
  { scores := { titleMatch := 25, skillsOverlap := 35, locationFit := 15
                salaryFit := 10, experienceFit := 10, industryBonus := 5 }
    rationale := "rubric" }

theorem c3_dealbreaker_short_circuit_witness :
    ∃ d ∈ demoProfile.dealbreakers,
      containsCI (jobScoreText demoClearanceJob) d = true ∧
      (score demoClearanceJob demoProfile demoEvaluator).1.fitScore = 0 ∧
      (score demoClearanceJob demoProfile demoEvaluator).1.rationale =
        dealbreakerRationale d ∧
      (score demoClearanceJob demoProfile demoEvaluator).2 = 0 :=
  c3_dealbreaker_short_circuit demoClearanceJob demoProfile demoEvaluator
    (by decide)

/-! ### SimilaritySearch (spec 4.5) -/

/-- Modelled from the spec: the ranking order of similarity results —
descending similarity score, ties broken by more recent `scraped_at`. The
similarity values are produced by the (monotone transform of the) cosine
similarity against the query vector. -/
def RankBefore (a b : Job × Int) : Prop :=
  b.2 < a.2 ∨ (a.2 = b.2 ∧ b.1.scrapedAt ≤ a.1.scrapedAt)

instance : DecidableRel RankBefore := fun a b => by
  unfold RankBefore; exact inferInstance

instance : IsTotal (Job × Int) RankBefore where
  total a b := by
    rcases lt_trichotomy a.2 b.2 with h | h | h
    · exact Or.inr (Or.inl h)
    · rcases Nat.le_total b.1.scrapedAt a.1.scrapedAt with hs | hs
      · exact Or.inl (Or.inr ⟨h, hs⟩)
      · exact Or.inr (Or.inr ⟨h.symm, hs⟩)
    · exact Or.inl (Or.inl h)

instance : IsTrans (Job × Int) RankBefore where
  trans a b c hab hbc := by
    rcases hab with h | ⟨e₁, s₁⟩ <;> rcases hbc with h' | ⟨e₂, s₂⟩
    · exact Or.inl (lt_trans h' h)
    · exact Or.inl (e₂ ▸ h)
    · exact Or.inl (e₁ ▸ h')
    · exact Or.inr ⟨e₁.trans e₂, le_trans s₂ s₁⟩

/-- Modelled from the spec: the scored candidates of a similarity query —
jobs without an embedding, the excluded (query) job, and jobs marked as
duplicates are filtered out, each survivor paired with its similarity
against the query vector. -/
def simScored (store : List Job) (sim : List Int → Int)
    (excludeId : String) : List (Job × Int) :=
  store.filterMap fun j =>
    match j.embedding with
    | none => none
    | some v =>
      if j.id ≠ excludeId ∧ j.duplicateOf = none then some (j, sim v)
      else none

/-- Modelled from the spec:
`topK(queryVector, k, excludeId) -> ordered sequence of (jobId, score)`.
`sim` is the similarity of a stored embedding against the query vector. The
eligible candidates are sorted by descending similarity (ties by more recent
`scraped_at`) and the first `k` are returned. -/
def topK (store : List Job) (sim : List Int → Int) (k : Nat)
    (excludeId : String) : List (String × Int) :=
  (((simScored store sim excludeId).insertionSort RankBefore).take k).map
    fun p => (p.1.id, p.2)

/-- The contract of claim C4: no excluded id, no duplicate jobs, at most `k`
results, never more results than stored jobs, non-increasing similarity
order, and the empty corpus yields the empty sequence. -/
def TopKContract (store : List Job) (sim : List Int → Int) (k : Nat)
    (excludeId : String) : Prop :=
  (∀ p ∈ topK store sim k excludeId, p.1 ≠ excludeId) ∧
  (∀ p ∈ topK store sim k excludeId,
    ∃ j ∈ store, j.id = p.1 ∧ j.duplicateOf = none) ∧
  (topK store sim k excludeId).length ≤ k ∧
  (topK store sim k excludeId).length ≤ store.length ∧
  List.Sorted (fun p q : String × Int => q.2 ≤ p.2)
    (topK store sim k excludeId) ∧
  (store = [] → topK store sim k excludeId = [])

/-! ### Claim C4 -/

/-- C4: for every corpus, similarity function, `k` and excluded id, `topK`
returns a sequence that never contains the excluded id, contains only ids of
non-duplicate stored jobs, has at most `k` entries ordered by non-increasing
similarity, and degrades to fewer (possibly zero) entries on a small or empty
corpus instead of failing. -/
theorem c4_topk_contract (store : List Job) (sim : List Int → Int) (k : Nat)
    (excludeId : String) : TopKContract store sim k excludeId := by
  have hmem : ∀ p ∈ topK store sim k excludeId,
      ∃ j ∈ store, j.id = p.1 ∧ j.id ≠ excludeId ∧ j.duplicateOf = none := by
    intro p hp
    unfold topK at hp
    obtain ⟨q, hq, rfl⟩ := List.mem_map.mp hp
    have hq' := (List.take_sublist _ _).subset hq
    rw [List.mem_insertionSort] at hq'
    obtain ⟨j, hj, hjq⟩ := List.mem_filterMap.mp hq'
    cases hemb : j.embedding with
    | none => rw [hemb] at hjq; cases hjq
    | some v =>
      rw [hemb] at hjq
      dsimp only at hjq
      by_cases hc : j.id ≠ excludeId ∧ j.duplicateOf = none
      · rw [if_pos hc] at hjq
        cases hjq
        exact ⟨j, hj, rfl, hc⟩
      · rw [if_neg hc] at hjq
        cases hjq
  refine ⟨?_, ?_, ?_, ?_, ?_, ?_⟩
  · intro p hp
    obtain ⟨j, _, hjp, hne, _⟩ := hmem p hp
    exact hjp ▸ hne
  · intro p hp
    obtain ⟨j, hj, hjp, _, hdup⟩ := hmem p hp
    exact ⟨j, hj, hjp, hdup⟩
  · unfold topK
    rw [List.length_map, List.length_take]
    exact min_le_left _ _
  · unfold topK
    rw [List.length_map, List.length_take]
    refine le_trans (min_le_right _ _) ?_
    rw [List.length_insertionSort]
    exact List.length_filterMap_le _ _
  · unfold topK
    have hs : List.Pairwise RankBefore
        (((simScored store sim excludeId).insertionSort RankBefore).take k) :=
      List.Pairwise.sublist (List.take_sublist _ _)
        (List.sorted_insertionSort RankBefore _)
    refine hs.map _ ?_
    intro a b hab
    rcases hab with h | ⟨e, -⟩
    · exact le_of_lt h
    · exact le_of_eq e.symm
  · intro h
    subst h
    simp [topK, simScored]

/-- An embedded job for the similarity-search witness. -/
def mkVecJob (id : String) (t : Nat) (emb : Option (List Int))
    (dup : Option String) : Job :=
  { id := id, title := "t", company := "c", location := "l", url := id
    description := "", requirements := "", salaryMin := none
    salaryMax := none, workType := "remote", source := "indeed"
    scrapedAt := t, postedDate := none, status := "new", notes := ""
    fitScore := none, fitRationale := none, embedding := emb
    duplicateOf := dup }

/-- A corpus with an eligible job, a duplicate, the query job itself and an
unembedded job. -/
def demoVecStore : List Job :=
  [ mkVecJob "j1" 1 (some [3, 1]) none
  , mkVecJob "j2" 2 (some [5, 5]) (some "j1")
  , mkVecJob "query" 3 (some [9, 9]) none
  , mkVecJob "j4" 4 none none ]

/-- A concrete similarity function for the witness. -/
def demoSim : List Int → Int := fun v => v.foldl (· + ·) 0

theorem c4_topk_contract_witness : TopKContract demoVecStore demoSim 2 "query" :=
  c4_topk_contract demoVecStore demoSim 2 "query"

/-! ### Embedder (spec 4.4) -/

/-- The embedding dimension D (the repository uses all-MiniLM-L6-v2 with 384
dimensions). -/
def D : Nat := 384

/-- Modelled from the spec: the external embedding provider,
`embed(text) -> fixed-length vector` — a deterministic pure function of the
model version and the text, always producing a `D`-dimensional vector, also
for empty text. The concrete arithmetic stands in for the real model; the
claims depend only on determinism, totality and the dimension. -/
def embedText (modelVersion : Nat) (text : String) : List Int :=
  let h := text.data.foldl (fun a c => a * 31 + c.toNat) modelVersion
  (List.range D).map fun i => Int.ofNat ((h + i * 7919) % 1000)

/-- Text basis of a job embedding: concatenation of title, description and
requirements (spec 4.4). -/
def embedBasis (j : Job) : String :=
  j.title ++ " " ++ j.description ++ " " ++ j.requirements

/-- Modelled from the spec: `embed(job) -> vector[D]`. -/
def embedJob (modelVersion : Nat) (j : Job) : List Int :=
  embedText modelVersion (embedBasis j)

/-! ### Claim C5 -/

/-- C5: for a fixed model version, two calls of `embed` on identical text
return bit-identical vectors of exactly `D` dimensions, and a job whose
description text is empty still receives a `D`-dimensional vector (computed
over whatever text is available) rather than an error. -/
theorem c5_embed_deterministic (modelVersion : Nat) (t1 t2 : String)
    (j : Job) (h : t1 = t2) :
    embedText modelVersion t1 = embedText modelVersion t2 ∧
    (embedText modelVersion t1).length = D ∧
    (embedJob modelVersion j).length = D := by
  refine ⟨by rw [h], ?_, ?_⟩ <;>
    simp [embedText, embedJob]

/-- A job with empty description and requirements, for the C5 witness. -/
def demoEmptyJob : Job :=
  { id := jobId "https://x.example/empty", title := "Data Scientist"
    company := "Acme", location := "", url := "https://x.example/empty"
    description := "", requirements := "", salaryMin := none
    salaryMax := none, workType := "remote", source := "heb", scrapedAt := 9
    postedDate := none, status := "new", notes := "", fitScore := none
    fitRationale := none, embedding := none, duplicateOf := none }

theorem c5_embed_deterministic_witness :
    embedText 1 "python ml" = embedText 1 "python ml" ∧
    (embedText 1 "python ml").length = D ∧
    (embedJob 1 demoEmptyJob).length = D :=
  c5_embed_deterministic 1 "python ml" "python ml" demoEmptyJob rfl

/-! ### SearchOrchestrator (spec 4.6) -/

/-- Modelled from the spec: a source adapter together with the outcome of
invoking it in this run — either its raw listings or its failure message. -/
structure SourceAdapter where
  name : String
  fetch : Except String (List RawListing)

/-- Modelled from the spec: the SearchRun summary record. -/
structure SearchRun where
  sources : List String
  jobsFound : Nat
  newJobs : Nat
  errors : List String

/-- Did the adapter's invocation fail? -/
def fetchFailed (a : SourceAdapter) : Bool :=
  match a.fetch with
  | .error _ => true
  | .ok _ => false

/-- The per-source error string recorded for a failed adapter: it names the
source (spec scenario 3: `"bad_source: <message>"`). -/
def fetchErrorString (a : SourceAdapter) : String :=
  match a.fetch with
  | .error msg => a.name ++ ": " ++ msg
  | .ok _ => ""

/-- Ingest a batch of raw listings in order. -/
def ingestAll (store : List Job) (rs : List RawListing) (now : Nat) :
    List Job :=
  rs.foldl (fun s r => ingest s r now) store

/-- One orchestrator step for one adapter: a failure appends one error string
naming the source and leaves the store untouched; a success ingests every
listing and tallies the counts. -/
def runStep (now : Nat) (acc : List Job × SearchRun) (a : SourceAdapter) :
    List Job × SearchRun :=
  match a.fetch with
  | .error msg =>
    (acc.1, { acc.2 with errors := acc.2.errors ++ [a.name ++ ": " ++ msg] })
  | .ok rs =>
    let store' := ingestAll acc.1 rs now
    (store', { acc.2 with
      jobsFound := acc.2.jobsFound + rs.length
      newJobs := acc.2.newJobs + (store'.length - acc.1.length) })

/-- Modelled from the spec: `run(sources, params) -> SearchRun` — every
requested adapter is invoked; failures are recorded and the run continues
with the remaining sources (spec 4.6). Returns the final store and the run
summary. -/
def runSearchAll (store : List Job) (adapters : List SourceAdapter)
    (now : Nat) : List Job × SearchRun :=
  adapters.foldl (runStep now)
    (store, { sources := adapters.map SourceAdapter.name, jobsFound := 0
              newJobs := 0, errors := [] })

/-! ### Orchestrator lemmas -/

theorem runStep_foldl_errors (now : Nat) :
    ∀ (adapters : List SourceAdapter) (acc : List Job × SearchRun),
      (adapters.foldl (runStep now) acc).2.errors =
        acc.2.errors ++ (adapters.filter fetchFailed).map fetchErrorString := by
  intro adapters
  induction adapters with
  | nil => intro acc; simp
  | cons a as ih =>
    intro acc
    rw [List.foldl_cons, ih, List.filter_cons]
    cases hf : a.fetch with
    | error msg =>
      have h1 : fetchFailed a = true := by simp [fetchFailed, hf]
      have h2 : fetchErrorString a = a.name ++ ": " ++ msg := by
        simp [fetchErrorString, hf]
      rw [h1]
      simp only [runStep, hf, if_true, List.map_cons, h2]
      simp
    | ok rs =>
      have h1 : fetchFailed a = false := by simp [fetchFailed, hf]
      rw [h1]
      simp [runStep, hf]

theorem ingest_id_mono {x : String} (s : List Job) (r : RawListing)
    (now : Nat) (h : x ∈ s.map Job.id) :
    x ∈ (ingest s r now).map Job.id := by
  rw [ingest_map_id, upsertRaw_map_id]
  split
  · exact h
  · exact List.mem_append_left _ h

theorem ingest_id_self (s : List Job) (r : RawListing) (now : Nat) :
    jobId r.url ∈ (ingest s r now).map Job.id := by
  rw [ingest_map_id, upsertRaw_map_id]
  split
  · next hc =>
    obtain ⟨j, hj, hid⟩ := hc
    exact hid ▸ List.mem_map_of_mem _ hj
  · exact List.mem_append_right _ (by simp)

theorem ingestAll_id_mono {x : String} :
    ∀ (rs : List RawListing) (s : List Job) (now : Nat),
      x ∈ s.map Job.id → x ∈ (ingestAll s rs now).map Job.id := by
  intro rs
  induction rs with
  | nil => intro s now h; exact h
  | cons r rs ih =>
    intro s now h
    exact ih _ now (ingest_id_mono s r now h)

theorem ingestAll_id_self {r : RawListing} :
    ∀ (rs : List RawListing) (s : List Job) (now : Nat), r ∈ rs →
      jobId r.url ∈ (ingestAll s rs now).map Job.id := by
  intro rs
  induction rs with
  | nil => intro s now h; cases h
  | cons r' rs ih =>
    intro s now h
    rcases List.mem_cons.mp h with rfl | h
    · exact ingestAll_id_mono rs _ now (ingest_id_self s r now)
    · exact ih _ now h

theorem runFoldl_id_mono (now : Nat) {x : String} :
    ∀ (adapters : List SourceAdapter) (acc : List Job × SearchRun),
      x ∈ acc.1.map Job.id →
      x ∈ (adapters.foldl (runStep now) acc).1.map Job.id := by
  intro adapters
  induction adapters with
  | nil => intro acc h; exact h
  | cons a as ih =>
    intro acc h
    rw [List.foldl_cons]
    apply ih
    cases hf : a.fetch with
    | error msg => simpa [runStep, hf] using h
    | ok rs =>
      simp only [runStep, hf]
      exact ingestAll_id_mono rs _ now h

theorem runFoldl_ok_ingested (now : Nat) :
    ∀ (adapters : List SourceAdapter) (acc : List Job × SearchRun),
      ∀ a ∈ adapters, ∀ rs, a.fetch = .ok rs → ∀ r ∈ rs,
        jobId r.url ∈ (adapters.foldl (runStep now) acc).1.map Job.id := by
  intro adapters
  induction adapters with
  | nil => intro acc a ha; cases ha
  | cons b bs ih =>
    intro acc a ha rs hfetch r hr
    rcases List.mem_cons.mp ha with rfl | ha
    · rw [List.foldl_cons]
      apply runFoldl_id_mono now bs
      simp only [runStep, hfetch]
      exact ingestAll_id_self rs _ now hr
    · rw [List.foldl_cons]
      exact ih _ a ha rs hfetch r hr

/-- The contract of claim C6: the run's error list is exactly one error
string per failing source (naming that source), the error list is empty
precisely when every source succeeded, and every listing of every succeeding
source ends up ingested in the final store. -/
def RunContract (store : List Job) (adapters : List SourceAdapter)
    (now : Nat) : Prop :=
  (runSearchAll store adapters now).2.errors =
    (adapters.filter fetchFailed).map fetchErrorString ∧
  ((runSearchAll store adapters now).2.errors = [] ↔
    ∀ a ∈ adapters, fetchFailed a = false) ∧
  (∀ a ∈ adapters, ∀ rs, a.fetch = .ok rs → ∀ r ∈ rs,
    jobId r.url ∈ (runSearchAll store adapters now).1.map Job.id)

/-! ### Claim C6 -/

/-- C6: `run` always completes with a SearchRun — each failing source
contributes exactly one error string naming it (in source order), the error
list is empty exactly when every source succeeded, and the listings of every
succeeding source are still ingested into the store even when other sources
fail. -/
theorem c6_run_partial_failure (store : List Job)
    (adapters : List SourceAdapter) (now : Nat) :
    RunContract store adapters now := by
  have herr : (runSearchAll store adapters now).2.errors =
      (adapters.filter fetchFailed).map fetchErrorString := by
    unfold runSearchAll
    rw [runStep_foldl_errors]
    rfl
  refine ⟨herr, ?_, ?_⟩
  · rw [herr]
    constructor
    · intro h a ha
      have := List.map_eq_nil_iff.mp h
      rcases List.filter_eq_nil_iff.mp this a ha with h'
      · simpa using fun hcontra => h' hcontra
    · intro h
      have : adapters.filter fetchFailed = [] :=
        List.filter_eq_nil_iff.mpr fun a ha => by simp [h a ha]
      rw [this]
      rfl
  · intro a ha rs hfetch r hr
    unfold runSearchAll
    exact runFoldl_ok_ingested now adapters _ a ha rs hfetch r hr

/-- Spec scenario 3: a failing source and a succeeding one. -/
def badAdapter : SourceAdapter :=
  { name := "bad_source", fetch := .error "boom" }

/-- A succeeding adapter delivering one listing. -/
def hebAdapter : SourceAdapter :=
  { name := "heb", fetch := .ok [rawA] }

theorem c6_run_partial_failure_witness :
    RunContract [] [badAdapter, hebAdapter] 4 :=
  c6_run_partial_failure [] [badAdapter, hebAdapter] 4

/-! ### Frontend API client (`frontend/src/services/api.js`)

The HTTP requests the React UI builds, embedded directly from the
JavaScript source. A JSON object body is modelled as its list of
(field, value) pairs. -/

/-- An HTTP request as issued by the frontend `request` helper. -/
structure HttpRequest where
  url : String
  method : String
  body : Option (List (String × String))
  deriving DecidableEq, Repr

/-- Embeds `updateJob(id, data)` — `PATCH /api/jobs/{id}` with `data` as JSON body
(api.js). -/
def updateJobRequest (id : String) (data : List (String × String)) :
    HttpRequest :=
  { url := "/api/jobs/" ++ id, method := "PATCH", body := some data }

/-- Embeds `runSearch = () => request('/search/run', ...)` (api.js):
the function takes no parameter, so the request has no query string and no
body. -/
def runSearchRequest : HttpRequest :=
  { url := "/api/search/run", method := "POST", body := none }

/-- Embeds the api.js `generateCoverLetter = (jobId) => ...` client call: only the job id is accepted; no body is
sent. -/
def generateCoverRequest (jobId : String) : HttpRequest :=
  { url := "/api/applications/" ++ jobId ++ "/cover", method := "POST"
    body := none }

/-- Embeds `handleStatusChange` (JobDetail.jsx): `updateJob(id, { status:
newStatus })`. -/
def handleStatusChangeRequest (id newStatus : String) : HttpRequest :=
  updateJobRequest id [("status", newStatus)]

/-- Embeds `handleSaveNotes` (JobDetail.jsx): `updateJob(id, { notes })`. -/
def handleSaveNotesRequest (id notes : String) : HttpRequest :=
  updateJobRequest id [("notes", notes)]

/-- Embeds `handleArchive` (JobList.jsx variant with archive buttons):
`updateJob(jobId, { status: 'archived' })`. -/
def handleArchiveRequest (jobId : String) : HttpRequest :=
  updateJobRequest jobId [("status", "archived")]

/-- Embeds `handleRunSearch` (Dashboard.jsx): the page calls
`runSearch({ sources: selectedSource })`, but the api-client `runSearch`
accepts no parameters, so JavaScript discards the argument and the issued
request is the parameterless `runSearchRequest`. -/
def handleRunSearchRequest (selectedSource : String) : HttpRequest :=
  runSearchRequest

/-- Embeds `handleGenerateCover` (JobDetail.jsx): the page calls
`generateCoverLetter(id, { tone: selectedTone })`, but the api-client
`generateCoverLetter` accepts only the job id, so JavaScript discards the
second argument. -/
def handleGenerateCoverRequest (jobId selectedTone : String) : HttpRequest :=
  generateCoverRequest jobId

/-- The field names carried in a request body. -/
def bodyFieldNames (r : HttpRequest) : List String :=
  (r.body.getD []).map Prod.fst

/-! ### Claim C7 -/

/-- C7 fails on the code: triggering a run from the Dashboard with the
selected source set "heb" issues `POST /api/search/run` with no body and no
query parameter — the `{ sources: selectedSource }` argument is dropped by
the api client, so the sources never reach the backend; the request is even
independent of the selection. -/
theorem c7_run_request_drops_sources :
    handleRunSearchRequest "heb" =
      { url := "/api/search/run", method := "POST", body := none } ∧
    handleRunSearchRequest "heb" = handleRunSearchRequest "indeed" ∧
    bodyFieldNames (handleRunSearchRequest "heb") = [] :=
  ⟨rfl, rfl, rfl⟩

/-! ### Claim C8 -/

/-- C8: every partial-update (PATCH) request the UI issues against a job —
the status change, the notes save and the archive action — carries only the
fields `status` and/or `notes` in its body and no other Job field. -/
theorem c8_patch_only_status_notes (id newStatus notes jobId : String) :
    (handleStatusChangeRequest id newStatus).method = "PATCH" ∧
    bodyFieldNames (handleStatusChangeRequest id newStatus) = ["status"] ∧
    (handleSaveNotesRequest id notes).method = "PATCH" ∧
    bodyFieldNames (handleSaveNotesRequest id notes) = ["notes"] ∧
    (handleArchiveRequest jobId).method = "PATCH" ∧
    (handleArchiveRequest jobId).body = some [("status", "archived")] :=
  ⟨rfl, rfl, rfl, rfl, rfl, rfl⟩

/-! ### Claim C9 -/

/-- C9: generating a cover letter from the job detail page issues
`POST /api/applications/{job_id}/cover` with no request body — the
`{ tone: selectedTone }` object is discarded because the api client accepts
only the job id, so the selected tone is never transmitted (the request does
not depend on the tone at all). -/
theorem c9_cover_tone_never_sent (jobId tone1 tone2 : String) :
    handleGenerateCoverRequest jobId tone1 =
      { url := "/api/applications/" ++ jobId ++ "/cover", method := "POST"
        body := none } ∧
    (handleGenerateCoverRequest jobId tone1).body = none ∧
    handleGenerateCoverRequest jobId tone1 =
      handleGenerateCoverRequest jobId tone2 :=
  ⟨rfl, rfl, rfl⟩

/-! ### JobList page with the "Hide duplicates" checkbox -/

/-- The client-side sortable columns of the JobList table. -/
inductive SortField
  | title
  | location
  | salaryMin
  | fitScore
  | scrapedAt
  deriving DecidableEq, Repr

/-- A JavaScript sort value: a string, a number, or null/undefined. -/
inductive SortVal
  | str (s : String)
  | num (n : Int)
  | missing
  deriving DecidableEq, Repr

/-- Computes `a[sortField]` of the JobList comparator (dates already converted to
their numeric timestamp, as `new Date(v).getTime()` does). -/
def getSortVal (j : Job) : SortField → SortVal
  | .title => .str j.title
  | .location => .str j.location
  | .salaryMin =>
    match j.salaryMin with
    | none => .missing
    | some n => .num n
  | .fitScore =>
    match j.fitScore with
    | none => .missing
    | some n => .num n
  | .scrapedAt => .num (Int.ofNat j.scrapedAt)

/-- Lower-case a string character-wise (the comparator's `toLowerCase`). -/
def lowerStr (s : String) : String := String.mk (lowerChars s.data)

/-- The JobList sort comparator (JobList.jsx variant with the
"Hide duplicates" checkbox): null values sort last in ascending order and
first in descending; numbers and lower-cased strings compare with `<`/`>`,
flipped by the sort order. -/
def jsCompare (field : SortField) (asc : Bool) (a b : Job) : Int :=
  match getSortVal a field, getSortVal b field with
  | .missing, _ => if asc then 1 else -1
  | _, .missing => if asc then -1 else 1
  | .num x, .num y =>
    if x < y then (if asc then -1 else 1)
    else if y < x then (if asc then 1 else -1)
    else 0
  | .str x, .str y =>
    if lowerStr x < lowerStr y then (if asc then -1 else 1)
    else if lowerStr y < lowerStr x then (if asc then 1 else -1)
    else 0
  | .num _, .str _ => 0
  | .str _, .num _ => 0

/-- Embeds `filteredJobs` (JobList.jsx): when `hideDuplicates` is set, drop every
job whose `duplicate_of` is set. -/
def filteredJobs (hideDuplicates : Bool) (jobs : List Job) : List Job :=
  if hideDuplicates then jobs.filter fun j => j.duplicateOf.isNone else jobs

/-- The "a sorts no later than b" relation induced by the comparator. -/
def SortRel (field : SortField) (asc : Bool) (a b : Job) : Prop :=
  jsCompare field asc a b ≤ 0

instance (field : SortField) (asc : Bool) :
    DecidableRel (SortRel field asc) := fun a b => by
  unfold SortRel; exact inferInstance

/-- Embeds `sortedJobs` (JobList.jsx): `[...filteredJobs].sort(comparator)` —
a comparator sort, which returns a permutation of its input. -/
def sortedJobs (field : SortField) (asc : Bool) (l : List Job) : List Job :=
  l.insertionSort (SortRel field asc)

/-- The contract of claim C10: with the filter on, `filteredJobs` keeps
exactly the jobs with `duplicate_of` null, and the rendered `sortedJobs`
sequence is a permutation of `filteredJobs`, so no duplicate is ever
displayed. -/
def HideDuplicatesContract (jobs : List Job) (field : SortField)
    (asc : Bool) : Prop :=
  filteredJobs true jobs = jobs.filter (fun j => j.duplicateOf.isNone) ∧
  (∀ j ∈ filteredJobs true jobs, j.duplicateOf = none) ∧
  (∀ j ∈ jobs, j.duplicateOf = none → j ∈ filteredJobs true jobs) ∧
  (sortedJobs field asc (filteredJobs true jobs)).Perm
    (filteredJobs true jobs) ∧
  (∀ j ∈ sortedJobs field asc (filteredJobs true jobs),
    j.duplicateOf = none)

/-! ### Claim C10 -/

/-- C10: whenever `hideDuplicates` is true (its initial state), every row the
JobList page renders has `duplicate_of` null — `filteredJobs` removes exactly
the jobs whose `duplicate_of` is set, and `sortedJobs` is a permutation of
`filteredJobs` under every sort field and direction. -/
theorem c10_hide_duplicates (jobs : List Job) (field : SortField)
    (asc : Bool) : HideDuplicatesContract jobs field asc := by
  have hfil : filteredJobs true jobs =
      jobs.filter fun j => j.duplicateOf.isNone := rfl
  have hmem : ∀ j ∈ filteredJobs true jobs, j.duplicateOf = none := by
    intro j hj
    rw [hfil] at hj
    have := (List.mem_filter.mp hj).2
    exact Option.isNone_iff_eq_none.mp this
  have hperm : (sortedJobs field asc (filteredJobs true jobs)).Perm
      (filteredJobs true jobs) := List.perm_insertionSort _ _
  refine ⟨hfil, hmem, ?_, hperm, ?_⟩
  · intro j hj hdup
    rw [hfil]
    exact List.mem_filter.mpr ⟨hj, by simp [hdup]⟩
  · intro j hj
    exact hmem j (hperm.subset hj)

/-- A duplicate job and a canonical job for the C10 witness. -/
def demoRows : List Job :=
  [ mkVecJob "r1" 1 none none
  , mkVecJob "r2" 2 none (some "r1")
  , mkVecJob "r3" 3 none none ]

theorem c10_hide_duplicates_witness :
    HideDuplicatesContract demoRows SortField.title true :=
  c10_hide_duplicates demoRows SortField.title true

end Canopy
